import Mathlib

/-!
Verification of the SQLite-to-MariaDB migration utility (`utility.py`).

The Python source is shallowly embedded below: pure helpers become Lean
functions over `String` / `List Char`; the effectful `main` becomes a
function producing a trace of events, with the target database's
statement execution modelled by a failure oracle `String → Bool` and
Python exceptions modelled by `Except`.
-/

namespace Utility

/-- Python whitespace class for `\s` and `str.strip()` (ASCII range). -/
def isSpace (c : Char) : Bool :=
  c = ' ' || c = '\t' || c = '\n' || c = '\r' || c = Char.ofNat 11 || c = Char.ofNat 12

/-- Word character for the regex class `\w` (ASCII range). -/
def isWordChar (c : Char) : Bool :=
  ('a' ≤ c && c ≤ 'z') || ('A' ≤ c && c ≤ 'Z') || ('0' ≤ c && c ≤ '9') || c = '_'

/-- ASCII upper-casing of one character, as Python `str.upper()` does on ASCII. -/
def upChar (c : Char) : Char :=
  if 'a' ≤ c && c ≤ 'z' then Char.ofNat (c.toNat - 32) else c

/-- `s.upper()` on an ASCII string. -/
def upStr (s : String) : String := String.mk (s.toList.map upChar)

/-- Bool test that `needle` begins `hay` (used for Python `startswith`). -/
def leadsWith : List Char → List Char → Bool
  | [], _ => true
  | _ :: _, [] => false
  | a :: as, b :: bs => a == b && leadsWith as bs

/-- Bool test that `needle` occurs contiguously inside `hay`. -/
def containsAux (needle : List Char) : List Char → Bool
  | [] => needle.isEmpty
  | c :: rest => leadsWith needle (c :: rest) || containsAux needle rest

/-- Python's `needle in hay` substring test. -/
def containsSub (needle hay : String) : Bool := containsAux needle.toList hay.toList

/-- `sqlite_type_to_mysql` from `utility.py` lines 6-19: case-insensitive
substring matching, first branch wins, `TEXT` as the fallback. -/
def sqlite_type_to_mysql (sqlite_type : String) : String :=
  let t := upStr sqlite_type
  if containsSub "INT" t then "INT"
  else if containsSub "CHAR" t || containsSub "CLOB" t || containsSub "TEXT" t then "TEXT"
  else if containsSub "BLOB" t then "BLOB"
  else if containsSub "REAL" t || containsSub "FLOA" t || containsSub "DOUB" t then "DOUBLE"
  else if containsSub "DATE" t || containsSub "TIME" t then "DATETIME"
  else "TEXT"

/-- The spec's fixed ordered rule list (section 4.1), written as data:
each rule is a list of substrings to look for and the result keyword. -/
def typeRules : List (List String × String) :=
  [(["INT"], "INT"),
   (["CHAR", "CLOB", "TEXT"], "TEXT"),
   (["BLOB"], "BLOB"),
   (["REAL", "FLOA", "DOUB"], "DOUBLE"),
   (["DATE", "TIME"], "DATETIME")]

/-- First-match-wins scan of a rule list, as the spec describes. -/
def firstMatch (t : String) : List (List String × String) → Option String
  | [] => none
  | (pats, out) :: rest =>
      if pats.any (fun p => containsSub p t) then some out else firstMatch t rest

/-- Spec-side type mapper: case-insensitive substring matching against the
fixed ordered rule list, first matching rule wins, fallback `TEXT`. -/
def mapTypeSpec (s : String) : String := (firstMatch (upStr s) typeRules).getD "TEXT"

/-! ## DDL column parsing (`parse_columns`, lines 21-38) -/

/-- The tail after the first opening parenthesis of the input, if any
(the start of the match of the regex search for an open paren). -/
def afterFirstParen : List Char → Option (List Char)
  | [] => none
  | c :: rest => if c = '(' then some rest else afterFirstParen rest

/-- Everything strictly before the last closing parenthesis, if one exists.
(When the dropWhile result is nonempty its head is necessarily a close
parenthesis, the first character from the end failing the predicate.)
Together with `afterFirstParen` this realises the greedy DOTALL search
of a parenthesized group spanning first open to last close. -/
def upToLastClose (s : List Char) : Option (List Char) :=
  match s.reverse.dropWhile (fun c => c ≠ ')') with
  | [] => none
  | _ :: t => some t.reverse

/-- The outermost parenthesized group of the regex search on line 22:
text between the first open parenthesis and the last close parenthesis. -/
def outerParenGroup (s : List Char) : Option (List Char) :=
  (afterFirstParen s).bind upToLastClose

/-- After a comma, does a close parenthesis come before any open one?
This is the (negated) lookahead of the clause-splitting regex on line 27:
the comma is kept (not split) exactly when this holds. -/
def nextParenIsClose (s : List Char) : Bool :=
  match s.dropWhile (fun c => c ≠ '(' && c ≠ ')') with
  | ')' :: _ => true
  | _ => false

/-- Clause splitting worker: splits on commas whose lookahead does not see
a close parenthesis first, consuming the whitespace after a split comma.
`acc` is the current clause reversed; `fuel` bounds recursion and is
never exhausted when it starts at the input length. -/
def splitAux : Nat → List Char → List Char → List (List Char)
  | _, acc, [] => [acc.reverse]
  | 0, acc, _ :: _ => [acc.reverse]
  | fuel + 1, acc, ',' :: rest =>
      if nextParenIsClose rest then splitAux fuel (',' :: acc) rest
      else acc.reverse :: splitAux fuel [] (rest.dropWhile isSpace)
  | fuel + 1, acc, c :: rest => splitAux fuel (c :: acc) rest

/-- `re.split` of line 27: split on commas not nested inside a further
parenthesis. -/
def splitClauses (s : List Char) : List (List Char) := splitAux s.length [] s

/-- Python `str.strip()`: drop whitespace from both ends. -/
def pyStrip (s : List Char) : List Char :=
  ((s.dropWhile isSpace).reverse.dropWhile isSpace).reverse

/-- Python `str.strip` with the quoting/bracket character set of line 53. -/
def stripQuo (s : List Char) : List Char :=
  let quo : List Char := [Char.ofNat 96, '"', '[', ']']
  ((s.dropWhile (quo.contains ·)).reverse.dropWhile (quo.contains ·)).reverse

/-- `startswith` against a tuple of keywords (line 31). -/
def startsWithAny (l : List Char) (keys : List (List Char)) : Bool :=
  keys.any (fun k => leadsWith k l)

/-- The table-level constraint keywords skipped on line 31. -/
def constraintKeys : List (List Char) :=
  ["CONSTRAINT".toList, "PRIMARY KEY".toList, "UNIQUE".toList, "FOREIGN KEY".toList]

/-- The anchored column regex of line 33: an optional opening quote, a word
run (the column name), an optional closing quote, mandatory whitespace, then
a run of non-whitespace non-comma characters (the raw type token).
Returns `(name, rawType)` on success. -/
def matchColumn (line : List Char) : Option (List Char × List Char) :=
  let rest :=
    match line with
    | c :: t => if c = Char.ofNat 96 || c = '"' || c = '[' then t else line
    | [] => line
  let name := rest.takeWhile isWordChar
  if name.isEmpty then none
  else
    let r1 := rest.drop name.length
    let r2 :=
      match r1 with
      | c :: t => if c = Char.ofNat 96 || c = '"' || c = ']' then t else r1
      | [] => r1
    let sp := r2.takeWhile isSpace
    if sp.isEmpty then none
    else
      let r3 := r2.drop sp.length
      let typ := r3.takeWhile (fun c => !isSpace c && c ≠ ',')
      if typ.isEmpty then none else some (name, typ)

/-- The per-clause step of the loop on lines 28-37, before type mapping:
strip, skip empties and constraint clauses, then match name and raw type. -/
def clauseRaw (part : List Char) : Option (List Char × List Char) :=
  let line := pyStrip part
  if line.isEmpty then none
  else if startsWithAny (line.map upChar) constraintKeys then none
  else matchColumn line

/-- The per-clause contribution to `col_defs` (lines 34-37): the column
name and the mapped MySQL type. -/
def clauseToCol (part : List Char) : Option (String × String) :=
  (clauseRaw part).map (fun p => (String.mk p.1, sqlite_type_to_mysql (String.mk p.2)))

/-- `parse_columns` from `utility.py` lines 21-38. -/
def parse_columns (schema : String) : List (String × String) :=
  match outerParenGroup schema.toList with
  | none => []
  | some g => (splitClauses g).filterMap clauseToCol

/-- The clause list `parse_columns` iterates over (the `parts` of line 27). -/
def clausesOf (schema : String) : List String :=
  match outerParenGroup schema.toList with
  | none => []
  | some g => (splitClauses g).map String.mk

/-- The raw type tokens bound to `col_type` on line 35, one per parsed
column, before `sqlite_type_to_mysql` is applied. -/
def extractedTypeTokens (schema : String) : List String :=
  match outerParenGroup schema.toList with
  | none => []
  | some g => (splitClauses g).filterMap (fun part => (clauseRaw part).map (fun p => String.mk p.2))

/-! ## Index parsing (`get_indexes`, lines 44-55) -/

/-- The first parenthesized group of the index-column regex on line 51:
a nonempty run of non-close characters between parens, leftmost match. -/
def firstParenGroup : List Char → Option (List Char)
  | [] => none
  | '(' :: rest =>
      let g := rest.takeWhile (fun c => c ≠ ')')
      if 0 < g.length && g.length < rest.length then some g
      else firstParenGroup rest
  | _ :: rest => firstParenGroup rest

/-- An index descriptor as built on line 54. -/
structure IndexDescr where
  name : String
  unique : Bool
  columns : List String
deriving DecidableEq, Repr

/-- The loop body of `get_indexes` (lines 48-54) for one catalog row:
`unique` is substring presence of `UNIQUE` in the upper-cased text, and
the columns come from the first parenthesized group, split on commas,
each stripped of whitespace then of quoting/bracket characters. -/
def parseIndexRow (name : String) (sql : String) : Option IndexDescr :=
  let unique := containsSub "UNIQUE" (upStr sql)
  match firstParenGroup sql.toList with
  | none => none
  | some g =>
      some { name := name, unique := unique,
             columns := (List.splitOn ',' g).map (fun col => String.mk (stripQuo (pyStrip col))) }

/-! ## The source catalog and the run model (`main`, lines 57-127) -/

/-- One row of `sqlite_master` (`typ` stands for the `type` column). -/
structure MasterRow where
  typ : String
  name : String
  tbl_name : String
  sql : Option String
deriving DecidableEq, Repr

/-- The source SQLite database: its catalog, and per table the full row set
of `SELECT *` (line 105) and the cursor's column names (line 107). -/
structure SourceDB where
  master : List MasterRow
  rowsOf : String → List (List String)
  colsOf : String → List String

/-- `row[0].startswith('sqlite_')` from line 42. -/
def sqliteInternal (name : String) : Bool := leadsWith "sqlite_".toList name.toList

/-- `get_tables` from lines 40-42: table names from the catalog, minus
those whose name starts with `sqlite_`. -/
def get_tables (db : SourceDB) : List String :=
  ((db.master.filter (fun r => r.typ == "table")).map MasterRow.name).filter
    (fun n => !sqliteInternal n)

/-- `get_indexes` from lines 44-55: parse every catalog index row of the
table whose creation text is non-null. -/
def get_indexes (db : SourceDB) (table : String) : List IndexDescr :=
  (db.master.filter (fun r => r.typ == "index" && r.tbl_name == table && r.sql.isSome)).filterMap
    (fun r => r.sql.bind (parseIndexRow r.name))

/-- Lines 76-78: fetch the table's creation text; the guard `row and row[0]`
rejects a missing row, a null text and an empty text alike. -/
def lookupTableSql (db : SourceDB) (table : String) : Option String :=
  match (db.master.filter (fun r => r.typ == "table" && r.name == table)).head? with
  | none => none
  | some r =>
      match r.sql with
      | none => none
      | some s => if s.isEmpty then none else some s

/-- The drop statement of line 85. -/
def dropSQL (table : String) : String := "DROP TABLE IF EXISTS `" ++ table ++ "`;"

/-- The create statement of lines 82-83. -/
def buildCreate (table : String) (cols : List (String × String)) : String :=
  "CREATE TABLE IF NOT EXISTS `" ++ table ++ "` ("
    ++ String.intercalate ", " (cols.map (fun p => "`" ++ p.1 ++ "` " ++ p.2)) ++ ");"

/-- The index statement of lines 92-96. -/
def buildIndexSQL (table : String) (idx : IndexDescr) : String :=
  let idx_cols := String.intercalate ", " (idx.columns.map (fun c => "`" ++ c ++ "`"))
  if idx.unique then
    "CREATE UNIQUE INDEX `" ++ idx.name ++ "` ON `" ++ table ++ "` (" ++ idx_cols ++ ");"
  else
    "CREATE INDEX `" ++ idx.name ++ "` ON `" ++ table ++ "` (" ++ idx_cols ++ ");"

/-- One placeholder group `(%s, %s, ...)` with one `%s` per column (line 111). -/
def placeholderGroup (n : Nat) : String :=
  "(" ++ String.intercalate ", " (List.replicate n "%s") ++ ")"

/-- The multi-row insert statement of lines 111-112: one placeholder group
per row of the batch. -/
def buildInsert (table : String) (cols : List String) (batch : List (List String)) : String :=
  "INSERT INTO `" ++ table ++ "` ("
    ++ String.intercalate ", " (cols.map (fun c => "`" ++ c ++ "`"))
    ++ ") VALUES "
    ++ String.intercalate ", " (batch.map (fun _ => placeholderGroup cols.length))

/-- The slices `rows[i:i+batch_size]` for `i in range(0, len(rows), B)`
(lines 109-110), written with explicit fuel; the fuel `rows.length` is
never exhausted when `1 ≤ B`. -/
def batchesAux (B : Nat) : Nat → List α → List (List α)
  | _, [] => []
  | 0, _ :: _ => []
  | fuel + 1, r :: rest => ((r :: rest).take B) :: batchesAux B fuel ((r :: rest).drop B)

/-- The batch partition of a row list for batch size `B`. -/
def batches (rows : List α) (B : Nat) : List (List α) := batchesAux B rows.length rows

/-- Observable events of one run: target statement executions with their
outcome, commits, the log lines carrying data, and the connection closes. -/
inductive Event where
  | exec (stmt : String) (ok : Bool)
  | commit
  | warning (idxName : String)
  | batchError (k : Nat) (table : String)
  | batchDone (k : Nat) (table : String)
  | noData (table : String)
  | closeTarget
  | closeSource
deriving DecidableEq, Repr

/-- The statements attempted against the target, in order. -/
def execStmts (es : List Event) : List String :=
  es.filterMap (fun e => match e with | Event.exec s _ => some s | _ => none)

/-- Lines 91-101: each index statement is executed inside `try`; a failure
yields a warning and the loop continues with the next index. -/
def processIndexes (f : String → Bool) (table : String) : List IndexDescr → List Event
  | [] => []
  | idx :: rest =>
      (if f (buildIndexSQL table idx) then
        [Event.exec (buildIndexSQL table idx) false, Event.warning idx.name]
       else [Event.exec (buildIndexSQL table idx) true])
        ++ processIndexes f table rest

/-- Lines 109-119 unrolled over the batch list, with `k` the printed batch
number `i // batch_size + 1`: the insert runs inside `try`; on success a
commit follows; either way the batch line is printed and the loop goes on. -/
def batchEvents (f : String → Bool) (table : String) (cols : List String) :
    Nat → List (List (List String)) → List Event
  | _, [] => []
  | k, b :: bs =>
      (if f (buildInsert table cols b) then
        [Event.exec (buildInsert table cols b) false, Event.batchError k table]
       else [Event.exec (buildInsert table cols b) true, Event.commit])
        ++ [Event.batchDone k table] ++ batchEvents f table cols (k + 1) bs

/-- Lines 104-121: transfer of one table's rows; an empty row set only
prints the no-data line and issues nothing. -/
def processBatches (f : String → Bool) (table : String) (cols : List String)
    (rows : List (List String)) (B : Nat) : List Event :=
  if rows.isEmpty then [Event.noData table]
  else batchEvents f table cols 1 (batches rows B)

/-- Lines 76-121 for one table. The drop and create executions of lines
85-86 are not inside any `try`: a failure there is an unhandled exception,
modelled by `Except.error` carrying the trace so far. A table with no
usable creation text is skipped silently. -/
def processTable (src : SourceDB) (f : String → Bool) (B : Nat) (table : String) :
    Except (List Event) (List Event) :=
  match lookupTableSql src table with
  | none => Except.ok []
  | some schema =>
      if f (dropSQL table) then Except.error [Event.exec (dropSQL table) false]
      else if f (buildCreate table (parse_columns schema)) then
        Except.error [Event.exec (dropSQL table) true,
          Event.exec (buildCreate table (parse_columns schema)) false]
      else
        Except.ok ([Event.exec (dropSQL table) true,
            Event.exec (buildCreate table (parse_columns schema)) true, Event.commit]
          ++ processIndexes f table (get_indexes src table)
          ++ processBatches f table (src.colsOf table) (src.rowsOf table) B)

/-- The `for table in tables` loop of line 74: an unhandled exception in one
table aborts the whole loop, otherwise traces accumulate in order. -/
def runTables (src : SourceDB) (f : String → Bool) (B : Nat) :
    List String → Except (List Event) (List Event)
  | [] => Except.ok []
  | t :: ts =>
      match processTable src f B t with
      | Except.error es => Except.error es
      | Except.ok es =>
          match runTables src f B ts with
          | Except.error es2 => Except.error (es ++ es2)
          | Except.ok es2 => Except.ok (es ++ es2)

/-- `main` from line 71 on: process every discovered table; only on normal
completion do lines 123-126 close the two connections (there is no
`finally`), so an unhandled exception ends the run with no close events.
The Bool records whether the run completed normally. -/
def mainRun (src : SourceDB) (f : String → Bool) (B : Nat) : List Event × Bool :=
  match runTables src f B (get_tables src) with
  | Except.error es => (es, false)
  | Except.ok es => (es ++ [Event.closeTarget, Event.closeSource], true)

/-- The event trace carried by a run result, completed or aborted. -/
def eventsOf (r : Except (List Event) (List Event)) : List Event :=
  match r with
  | Except.error es => es
  | Except.ok es => es

/-- The statements a fully successful run attempts for one table, in order:
drop, create, one statement per parsed index, one insert per batch. -/
def stmtsOfTable (src : SourceDB) (B : Nat) (t : String) : List String :=
  match lookupTableSql src t with
  | none => []
  | some s =>
      dropSQL t :: buildCreate t (parse_columns s) ::
        ((get_indexes src t).map (buildIndexSQL t)
          ++ (batches (src.rowsOf t) B).map (buildInsert t (src.colsOf t)))

/-- A small concrete source database used to instantiate the theorems:
one ordinary table with an index and three rows, one internal catalog
table, and one table whose creation text is empty. -/
def egSrc : SourceDB :=
  { master := [
      { typ := "table", name := "users", tbl_name := "users",
        sql := some "CREATE TABLE users (id INT, name TEXT)" },
      { typ := "index", name := "ix", tbl_name := "users",
        sql := some "CREATE INDEX ix ON users(name)" },
      { typ := "table", name := "sqlite_stat1", tbl_name := "sqlite_stat1",
        sql := some "CREATE TABLE sqlite_stat1(tbl,idx,stat)" },
      { typ := "table", name := "empty", tbl_name := "empty", sql := some "" } ],
    rowsOf := fun t => if t == "users" then [["1", "a"], ["2", "b"], ["3", "c"]] else [],
    colsOf := fun t => if t == "users" then ["id", "name"] else [] }

/-! ## Helper lemmas -/

theorem batchesAux_flatten {α : Type} (B : Nat) (hB : 1 ≤ B) :
    ∀ fuel (rows : List α), rows.length ≤ fuel → (batchesAux B fuel rows).flatten = rows := by
  intro fuel
  induction fuel with
  | zero =>
    intro rows h
    cases rows with
    | nil => rfl
    | cons a l => simp at h
  | succ n ih =>
    intro rows h
    cases rows with
    | nil => rfl
    | cons r rest =>
      show ((r :: rest).take B) ++ (batchesAux B n ((r :: rest).drop B)).flatten = r :: rest
      rw [ih]
      · exact List.take_append_drop B (r :: rest)
      · rw [List.length_drop]
        simp only [List.length_cons] at h ⊢
        omega

theorem batchesAux_length {α : Type} (B : Nat) (hB : 1 ≤ B) :
    ∀ fuel (rows : List α), rows.length ≤ fuel →
      (batchesAux B fuel rows).length = (rows.length + B - 1) / B := by
  intro fuel
  induction fuel with
  | zero =>
    intro rows h
    cases rows with
    | nil =>
      show 0 = (0 + B - 1) / B
      rw [Nat.zero_add, Nat.div_eq_of_lt (by omega)]
    | cons a l => simp at h
  | succ n ih =>
    intro rows h
    cases rows with
    | nil =>
      show 0 = (0 + B - 1) / B
      rw [Nat.zero_add, Nat.div_eq_of_lt (by omega)]
    | cons r rest =>
      show (batchesAux B n ((r :: rest).drop B)).length + 1 = ((r :: rest).length + B - 1) / B
      rw [ih]
      · have hlen : ((r :: rest).drop B).length = (r :: rest).length - B :=
          List.length_drop B (r :: rest)
        rw [hlen]
        set m := (r :: rest).length with hm
        have hm1 : 1 ≤ m := by simp [hm]
        have h2 : m + B - 1 = (m - 1) + B := by omega
        rw [h2, Nat.add_div_right _ (by omega)]
        rcases le_or_lt B m with hc | hc
        · have h3 : m - B + B - 1 = m - 1 := by omega
          rw [h3]
        · have hz : m - B = 0 := by omega
          rw [hz]
          rw [Nat.zero_add, Nat.div_eq_of_lt (by omega), Nat.div_eq_of_lt (by omega)]
      · rw [List.length_drop]
        simp only [List.length_cons] at h ⊢
        omega

theorem batchesAux_ne_nil {α : Type} (B : Nat) :
    ∀ fuel (rows : List α), rows ≠ [] → rows.length ≤ fuel → batchesAux B fuel rows ≠ [] := by
  intro fuel rows hne h
  cases rows with
  | nil => exact absurd rfl hne
  | cons r rest =>
    cases fuel with
    | zero => simp at h
    | succ n => simp [batchesAux]

theorem batchesAux_dropLast {α : Type} (B : Nat) (hB : 1 ≤ B) :
    ∀ fuel (rows : List α), rows.length ≤ fuel →
      ∀ b ∈ (batchesAux B fuel rows).dropLast, b.length = B := by
  intro fuel
  induction fuel with
  | zero =>
    intro rows h b hb
    cases rows with
    | nil => simp [batchesAux] at hb
    | cons r rest => simp at h
  | succ n ih =>
    intro rows h b hb
    cases rows with
    | nil => simp [batchesAux] at hb
    | cons r rest =>
      have hstep : batchesAux B (n + 1) (r :: rest) =
          ((r :: rest).take B) :: batchesAux B n ((r :: rest).drop B) := rfl
      by_cases hd : (r :: rest).drop B = []
      · have hz : batchesAux B n ((r :: rest).drop B) = [] := by
          rw [hd]; cases n <;> rfl
        rw [hstep, hz] at hb
        simp at hb
      · have hfuel : ((r :: rest).drop B).length ≤ n := by
          rw [List.length_drop]
          simp only [List.length_cons] at h ⊢
          omega
        have hinner : batchesAux B n ((r :: rest).drop B) ≠ [] :=
          batchesAux_ne_nil B n _ hd hfuel
        rw [hstep, List.dropLast_cons_of_ne_nil hinner] at hb
        rcases List.mem_cons.mp hb with hb1 | hb2
        · subst hb1
          have hlen : 1 ≤ ((r :: rest).drop B).length := List.length_pos.mpr hd
          rw [List.length_drop] at hlen
          rw [List.length_take]
          omega
        · exact ih _ hfuel b hb2

theorem batchesAux_getLast {α : Type} (B : Nat) (hB : 1 ≤ B) :
    ∀ fuel (rows : List α), rows.length ≤ fuel → rows ≠ [] →
      ∀ l, (batchesAux B fuel rows).getLast? = some l →
        l.length = if rows.length % B = 0 then B else rows.length % B := by
  intro fuel
  induction fuel with
  | zero =>
    intro rows h hne l hl
    cases rows with
    | nil => exact absurd rfl hne
    | cons r rest => simp at h
  | succ n ih =>
    intro rows h hne l hl
    cases rows with
    | nil => exact absurd rfl hne
    | cons r rest =>
      have hstep : batchesAux B (n + 1) (r :: rest) =
          ((r :: rest).take B) :: batchesAux B n ((r :: rest).drop B) := rfl
      by_cases hd : (r :: rest).drop B = []
      · have hz : batchesAux B n ((r :: rest).drop B) = [] := by
          rw [hd]; cases n <;> rfl
        rw [hstep, hz] at hl
        simp only [List.getLast?_singleton, Option.some.injEq] at hl
        subst hl
        have hle : (r :: rest).length ≤ B := by
          have := List.drop_eq_nil_iff.mp hd
          omega
        rw [List.length_take]
        have hm1 : 1 ≤ (r :: rest).length := by simp
        rcases Nat.lt_or_ge (r :: rest).length B with hc | hc
        · rw [Nat.mod_eq_of_lt hc]
          have hne0 : (r :: rest).length ≠ 0 := by omega
          simp [hne0]
          simp only [List.length_cons] at hc
          omega
        · have heq : (r :: rest).length = B := by omega
          rw [heq]
          simp
      · have hfuel : ((r :: rest).drop B).length ≤ n := by
          rw [List.length_drop]
          simp only [List.length_cons] at h ⊢
          omega
        have hinner : batchesAux B n ((r :: rest).drop B) ≠ [] :=
          batchesAux_ne_nil B n _ hd hfuel
        obtain ⟨y, t, hyt⟩ : ∃ y t, batchesAux B n ((r :: rest).drop B) = y :: t := by
          cases hq : batchesAux B n ((r :: rest).drop B) with
          | nil => exact absurd hq hinner
          | cons y t => exact ⟨y, t, rfl⟩
        rw [hstep, hyt, List.getLast?_cons_cons] at hl
        have hlast := ih ((r :: rest).drop B) hfuel hd l (by rw [hyt]; exact hl)
        have hBle : B ≤ (r :: rest).length := by
          have hlen : 1 ≤ ((r :: rest).drop B).length := List.length_pos.mpr hd
          rw [List.length_drop] at hlen
          omega
        rw [List.length_drop] at hlast
        rw [← Nat.mod_eq_sub_mod hBle] at hlast
        exact hlast

end Utility

namespace Utility

theorem leadsWith_iff : ∀ (n h : List Char), leadsWith n h = true ↔ ∃ t, h = n ++ t := by
  intro n
  induction n with
  | nil =>
    intro h
    simp [leadsWith]
  | cons a as ih =>
    intro h
    cases h with
    | nil =>
      simp [leadsWith]
    | cons b bs =>
      simp only [leadsWith, Bool.and_eq_true, beq_iff_eq, ih bs, List.cons_append,
        List.cons.injEq]
      constructor
      · rintro ⟨rfl, t, rfl⟩
        exact ⟨t, rfl, rfl⟩
      · rintro ⟨t, rfl, rfl⟩
        exact ⟨rfl, t, rfl⟩

theorem containsAux_iff : ∀ (n h : List Char), containsAux n h = true ↔ ∃ l r, h = l ++ n ++ r := by
  intro n h
  induction h with
  | nil =>
    simp only [containsAux, List.isEmpty_iff]
    constructor
    · rintro rfl
      exact ⟨[], [], rfl⟩
    · rintro ⟨l, r, hh⟩
      have h2 : l ++ n ++ r = [] := hh.symm
      simp only [List.append_eq_nil] at h2
      exact h2.1.2
  | cons c rest ih =>
    simp only [containsAux, Bool.or_eq_true, ih, leadsWith_iff]
    constructor
    · rintro (⟨t, hh⟩ | ⟨l, r, hh⟩)
      · exact ⟨[], t, by simpa using hh⟩
      · exact ⟨c :: l, r, by simp [hh]⟩
    · rintro ⟨l, r, hh⟩
      cases l with
      | nil =>
        left
        exact ⟨r, by simpa using hh⟩
      | cons x xs =>
        right
        simp only [List.cons_append, List.cons.injEq] at hh
        exact ⟨xs, r, hh.2⟩

theorem dropWhile_head_mem : ∀ (p : Char → Bool) (l : List Char) (x : Char) (xs : List Char),
    l.dropWhile p = x :: xs → p x = false ∧ x ∈ l := by
  intro p l
  induction l with
  | nil => intro x xs h; simp at h
  | cons c cs ih =>
    intro x xs h
    rw [List.dropWhile_cons] at h
    by_cases hc : p c = true
    · rw [if_pos hc] at h
      obtain ⟨h1, h2⟩ := ih x xs h
      exact ⟨h1, List.mem_cons_of_mem _ h2⟩
    · rw [if_neg hc] at h
      injection h with ha hb
      subst ha
      exact ⟨by simpa using hc, List.mem_cons_self _ _⟩

theorem afterFirstParen_decomp : ∀ (s rest : List Char),
    afterFirstParen s = some rest → ∃ l, s = l ++ '(' :: rest := by
  intro s
  induction s with
  | nil => intro rest h; simp [afterFirstParen] at h
  | cons c cs ih =>
    intro rest h
    rw [afterFirstParen] at h
    by_cases hc : c = '('
    · rw [if_pos hc] at h
      injection h with h1
      subst h1
      subst hc
      exact ⟨[], rfl⟩
    · rw [if_neg hc] at h
      obtain ⟨l, hl⟩ := ih rest h
      exact ⟨c :: l, by simp [hl]⟩

theorem upToLastClose_mem : ∀ (s t : List Char), upToLastClose s = some t → ')' ∈ s := by
  intro s t h
  unfold upToLastClose at h
  cases hq : s.reverse.dropWhile (fun c => decide (c ≠ ')')) with
  | nil => rw [hq] at h; simp at h
  | cons x xs =>
    obtain ⟨h1, h2⟩ := dropWhile_head_mem _ _ _ _ hq
    have hx : x = ')' := by
      by_contra hne
      simp [hne] at h1
    rw [← List.mem_reverse]
    rw [← hx]
    exact h2

end Utility

namespace Utility

theorem execStmts_append (a b : List Event) :
    execStmts (a ++ b) = execStmts a ++ execStmts b := by
  simp [execStmts, List.filterMap_append]

theorem execStmts_processIndexes (f : String → Bool) (table : String) :
    ∀ idxs : List IndexDescr,
      execStmts (processIndexes f table idxs) = idxs.map (buildIndexSQL table) := by
  intro idxs
  induction idxs with
  | nil => rfl
  | cons idx rest ih =>
    rw [processIndexes, execStmts_append, ih]
    by_cases hf : f (buildIndexSQL table idx) = true
    · rw [if_pos hf]; rfl
    · rw [if_neg hf]; rfl

theorem execStmts_batchEvents (f : String → Bool) (table : String) (cols : List String) :
    ∀ (bs : List (List (List String))) (k : Nat),
      execStmts (batchEvents f table cols k bs) = bs.map (buildInsert table cols) := by
  intro bs
  induction bs with
  | nil => intro k; rfl
  | cons b rest ih =>
    intro k
    rw [batchEvents, execStmts_append, execStmts_append, ih (k + 1)]
    by_cases hf : f (buildInsert table cols b) = true
    · rw [if_pos hf]; rfl
    · rw [if_neg hf]; rfl

theorem execStmts_processBatches (f : String → Bool) (table : String) (cols : List String)
    (rows : List (List String)) (B : Nat) :
    execStmts (processBatches f table cols rows B) =
      (batches rows B).map (buildInsert table cols) := by
  unfold processBatches
  by_cases h : rows.isEmpty
  · rw [if_pos h]
    have : rows = [] := by
      cases rows with
      | nil => rfl
      | cons a l => simp at h
    subst this
    rfl
  · rw [if_neg h]
    exact execStmts_batchEvents f table cols (batches rows B) 1

theorem processIndexes_no_close (f : String → Bool) (t : String) :
    ∀ idxs, ∀ e ∈ processIndexes f t idxs,
      e ≠ Event.closeTarget ∧ e ≠ Event.closeSource := by
  intro idxs
  induction idxs with
  | nil => intro e he; simp [processIndexes] at he
  | cons idx rest ih =>
    intro e he
    rw [processIndexes] at he
    rcases List.mem_append.mp he with he1 | he2
    · by_cases hf : f (buildIndexSQL t idx) = true
      · rw [if_pos hf] at he1
        simp only [List.mem_cons, List.not_mem_nil, or_false] at he1
        rcases he1 with rfl | rfl
        · exact ⟨by simp, by simp⟩
        · exact ⟨by simp, by simp⟩
      · rw [if_neg hf] at he1
        simp only [List.mem_cons, List.not_mem_nil, or_false] at he1
        subst he1
        exact ⟨by simp, by simp⟩
    · exact ih e he2

theorem batchEvents_no_close (f : String → Bool) (t : String) (cols : List String) :
    ∀ bs k, ∀ e ∈ batchEvents f t cols k bs,
      e ≠ Event.closeTarget ∧ e ≠ Event.closeSource := by
  intro bs
  induction bs with
  | nil => intro k e he; simp [batchEvents] at he
  | cons b rest ih =>
    intro k e he
    rw [batchEvents] at he
    rcases List.mem_append.mp he with he1 | he2
    · rcases List.mem_append.mp he1 with he3 | he4
      · by_cases hf : f (buildInsert t cols b) = true
        · rw [if_pos hf] at he3
          simp only [List.mem_cons, List.not_mem_nil, or_false] at he3
          rcases he3 with rfl | rfl
          · exact ⟨by simp, by simp⟩
          · exact ⟨by simp, by simp⟩
        · rw [if_neg hf] at he3
          simp only [List.mem_cons, List.not_mem_nil, or_false] at he3
          rcases he3 with rfl | rfl
          · exact ⟨by simp, by simp⟩
          · exact ⟨by simp, by simp⟩
      · simp only [List.mem_cons, List.not_mem_nil, or_false] at he4
        subst he4
        exact ⟨by simp, by simp⟩
    · exact ih (k + 1) e he2

theorem processBatches_no_close (f : String → Bool) (t : String) (cols : List String)
    (rows : List (List String)) (B : Nat) :
    ∀ e ∈ processBatches f t cols rows B,
      e ≠ Event.closeTarget ∧ e ≠ Event.closeSource := by
  intro e he
  unfold processBatches at he
  by_cases h : rows.isEmpty
  · rw [if_pos h] at he
    simp only [List.mem_cons, List.not_mem_nil, or_false] at he
    subst he
    exact ⟨by simp, by simp⟩
  · rw [if_neg h] at he
    exact batchEvents_no_close f t cols (batches rows B) 1 e he

theorem processTable_no_close (src : SourceDB) (f : String → Bool) (B : Nat) (t : String) :
    ∀ e ∈ eventsOf (processTable src f B t),
      e ≠ Event.closeTarget ∧ e ≠ Event.closeSource := by
  intro e he
  cases hl : lookupTableSql src t with
  | none => simp only [processTable, hl, eventsOf] at he; simp at he
  | some s =>
    simp only [processTable, hl] at he
    by_cases h1 : f (dropSQL t) = true
    · rw [if_pos h1] at he
      simp only [eventsOf, List.mem_cons, List.not_mem_nil, or_false] at he
      subst he
      exact ⟨by simp, by simp⟩
    · rw [if_neg h1] at he
      by_cases h2 : f (buildCreate t (parse_columns s)) = true
      · rw [if_pos h2] at he
        simp only [eventsOf, List.mem_cons, List.not_mem_nil, or_false] at he
        rcases he with rfl | rfl
        · exact ⟨by simp, by simp⟩
        · exact ⟨by simp, by simp⟩
      · rw [if_neg h2] at he
        simp only [eventsOf] at he
        rcases List.mem_append.mp he with he1 | he2
        · rcases List.mem_append.mp he1 with he3 | he4
          · simp only [List.mem_cons, List.not_mem_nil, or_false] at he3
            rcases he3 with rfl | rfl | rfl
            · exact ⟨by simp, by simp⟩
            · exact ⟨by simp, by simp⟩
            · exact ⟨by simp, by simp⟩
          · exact processIndexes_no_close f t _ e he4
        · exact processBatches_no_close f t _ _ B e he2

theorem runTables_no_close (src : SourceDB) (f : String → Bool) (B : Nat) :
    ∀ ts, ∀ e ∈ eventsOf (runTables src f B ts),
      e ≠ Event.closeTarget ∧ e ≠ Event.closeSource := by
  intro ts
  induction ts with
  | nil => intro e he; simp [runTables, eventsOf] at he
  | cons t rest ih =>
    intro e he
    rw [runTables] at he
    cases hp : processTable src f B t with
    | error es =>
      rw [hp] at he
      simp only [eventsOf] at he
      have := processTable_no_close src f B t e
      rw [hp] at this
      exact this he
    | ok es =>
      rw [hp] at he
      cases hr : runTables src f B rest with
      | error es2 =>
        rw [hr] at he
        simp only [eventsOf] at he
        rcases List.mem_append.mp he with he1 | he2
        · have := processTable_no_close src f B t e
          rw [hp] at this
          exact this he1
        · have := ih e
          rw [hr] at this
          exact this he2
      | ok es2 =>
        rw [hr] at he
        simp only [eventsOf] at he
        rcases List.mem_append.mp he with he1 | he2
        · have := processTable_no_close src f B t e
          rw [hp] at this
          exact this he1
        · have := ih e
          rw [hr] at this
          exact this he2

end Utility

namespace Utility

theorem processTable_ok (src : SourceDB) (f : String → Bool) (B : Nat) (t : String)
    (h : (lookupTableSql src t).all
        (fun s => !f (dropSQL t) && !f (buildCreate t (parse_columns s))) = true) :
    ∃ es, processTable src f B t = Except.ok es ∧ execStmts es = stmtsOfTable src B t := by
  cases hl : lookupTableSql src t with
  | none =>
    refine ⟨[], ?_, ?_⟩
    · simp [processTable, hl]
    · simp [stmtsOfTable, hl, execStmts]
  | some s =>
    rw [hl] at h
    simp only [Option.all_some, Bool.and_eq_true, Bool.not_eq_true'] at h
    obtain ⟨h1, h2⟩ := h
    refine ⟨[Event.exec (dropSQL t) true, Event.exec (buildCreate t (parse_columns s)) true,
        Event.commit] ++ processIndexes f t (get_indexes src t)
        ++ processBatches f t (src.colsOf t) (src.rowsOf t) B, ?_, ?_⟩
    · simp only [processTable, hl]
      rw [if_neg (by simp [h1]), if_neg (by simp [h2])]
    · rw [execStmts_append, execStmts_append, execStmts_processIndexes,
        execStmts_processBatches]
      simp only [stmtsOfTable, hl]
      simp [execStmts]

theorem runTables_ok (src : SourceDB) (f : String → Bool) (B : Nat) :
    ∀ ts, (∀ t ∈ ts, (lookupTableSql src t).all
        (fun s => !f (dropSQL t) && !f (buildCreate t (parse_columns s))) = true) →
      ∃ es, runTables src f B ts = Except.ok es ∧
        execStmts es = (ts.map (stmtsOfTable src B)).flatten := by
  intro ts
  induction ts with
  | nil => intro h; exact ⟨[], rfl, rfl⟩
  | cons t rest ih =>
    intro h
    obtain ⟨es1, hp, hs1⟩ := processTable_ok src f B t (h t (by simp))
    obtain ⟨es2, hr, hs2⟩ := ih (fun x hx => h x (by simp [hx]))
    refine ⟨es1 ++ es2, ?_, ?_⟩
    · rw [runTables, hp, hr]
    · rw [execStmts_append, hs1, hs2]
      simp

theorem warning_mem_processIndexes (g : String → Bool) (t : String) :
    ∀ idxs (idx : IndexDescr), idx ∈ idxs → g (buildIndexSQL t idx) = true →
      Event.warning idx.name ∈ processIndexes g t idxs := by
  intro idxs
  induction idxs with
  | nil => intro idx h hg; simp at h
  | cons i rest ih =>
    intro idx hmem hg
    rw [processIndexes]
    rcases List.mem_cons.mp hmem with rfl | hmem2
    · apply List.mem_append_left
      rw [if_pos hg]
      simp
    · exact List.mem_append_right _ (ih idx hmem2 hg)

theorem batchError_mem_batchEvents (g : String → Bool) (t : String) (cols : List String) :
    ∀ bs (b : List (List String)) (k : Nat), b ∈ bs → g (buildInsert t cols b) = true →
      ∃ j, Event.batchError j t ∈ batchEvents g t cols k bs := by
  intro bs
  induction bs with
  | nil => intro b k h hg; simp at h
  | cons b0 rest ih =>
    intro b k hmem hg
    rcases List.mem_cons.mp hmem with rfl | hmem2
    · refine ⟨k, ?_⟩
      rw [batchEvents]
      apply List.mem_append_left
      apply List.mem_append_left
      rw [if_pos hg]
      simp
    · obtain ⟨j, hj⟩ := ih b (k + 1) hmem2 hg
      refine ⟨j, ?_⟩
      rw [batchEvents]
      exact List.mem_append_right _ hj

end Utility

namespace Utility

/-- C2: the type mapper is a total, pure, deterministic function on every
input string (a Lean function by construction), equal everywhere to the
spec's first-match scan of the fixed ordered rule list with fallback TEXT,
always lands in the five-keyword target enum, and takes the six listed
values on INTEGER, VARCHAR(255), BLOB, REAL, TIMESTAMP and the empty
string. -/
theorem C2_type_mapper :
    (∀ s : String, sqlite_type_to_mysql s = mapTypeSpec s)
    ∧ (∀ s : String, sqlite_type_to_mysql s = "INT" ∨ sqlite_type_to_mysql s = "TEXT" ∨
        sqlite_type_to_mysql s = "BLOB" ∨ sqlite_type_to_mysql s = "DOUBLE" ∨
        sqlite_type_to_mysql s = "DATETIME")
    ∧ sqlite_type_to_mysql "INTEGER" = "INT"
    ∧ sqlite_type_to_mysql "VARCHAR(255)" = "TEXT"
    ∧ sqlite_type_to_mysql "BLOB" = "BLOB"
    ∧ sqlite_type_to_mysql "REAL" = "DOUBLE"
    ∧ sqlite_type_to_mysql "TIMESTAMP" = "DATETIME"
    ∧ sqlite_type_to_mysql "" = "TEXT" := by
  refine ⟨?_, ?_, by decide, by decide, by decide, by decide, by decide, by decide⟩
  · intro s
    simp only [sqlite_type_to_mysql, mapTypeSpec, typeRules, firstMatch, List.any_cons,
      List.any_nil, Bool.or_false, Bool.or_eq_true]
    split_ifs <;> simp_all
  · intro s
    simp only [sqlite_type_to_mysql]
    split_ifs <;> simp

/-- C1: for batch size B at least 1, the batch data mover partitions the N
rows into exactly ceil(N / B) contiguous batches in source order (their
concatenation is the row list), every batch except the last has exactly B
rows, the last has N mod B rows (B when B divides N), exactly one
multi-row insert statement is attempted per batch whatever the failure
oracle does, and an empty row set issues no insert statement at all. -/
theorem C1_batch_partition (table : String) (cols : List String)
    (rows : List (List String)) (B : Nat) (f : String → Bool) (hB : 1 ≤ B) :
    (batches rows B).length = (rows.length + B - 1) / B
    ∧ (batches rows B).flatten = rows
    ∧ (∀ b ∈ (batches rows B).dropLast, b.length = B)
    ∧ (∀ l, (batches rows B).getLast? = some l →
        l.length = if rows.length % B = 0 then B else rows.length % B)
    ∧ execStmts (processBatches f table cols rows B) =
        (batches rows B).map (buildInsert table cols)
    ∧ (rows = [] → processBatches f table cols rows B = [Event.noData table]
        ∧ execStmts (processBatches f table cols rows B) = []) := by
  refine ⟨batchesAux_length B hB rows.length rows (le_refl _),
    batchesAux_flatten B hB rows.length rows (le_refl _),
    batchesAux_dropLast B hB rows.length rows (le_refl _), ?_,
    execStmts_processBatches f table cols rows B, ?_⟩
  · intro l hl
    rcases eq_or_ne rows [] with rfl | hne
    · simp [batches, batchesAux] at hl
    · exact batchesAux_getLast B hB rows.length rows (le_refl _) hne l hl
  · rintro rfl
    exact ⟨rfl, rfl⟩

/-- Witness for C1 at three rows and batch size two. -/
theorem C1_batch_partition_witness :
    1 ≤ 2 ∧ (batches ([["1"], ["2"], ["3"]] : List (List String)) 2).length = (3 + 2 - 1) / 2 :=
  ⟨by decide, (C1_batch_partition "users" ["id"] [["1"], ["2"], ["3"]] 2 (fun _ => false)
      (by decide)).1⟩

/-- C3: when the failure oracle fails only index-creation or batch-insert
statements (never a drop or create), the run still completes normally and
attempts exactly the same statements, in the same order, as a run with no
failures at all; moreover, for any oracle, every index and every batch is
attempted exactly once regardless of other failures, a failing index
produces its warning event, and a failing batch produces a batch-error
event. -/
theorem C3_failure_isolation (src : SourceDB) (f : String → Bool) (B : Nat)
    (h : ∀ t ∈ get_tables src, (lookupTableSql src t).all
        (fun s => !f (dropSQL t) && !f (buildCreate t (parse_columns s))) = true) :
    (mainRun src f B).2 = true
    ∧ execStmts (mainRun src f B).1 = execStmts (mainRun src (fun _ => false) B).1
    ∧ (∀ (g : String → Bool) (t : String) (idxs : List IndexDescr),
        execStmts (processIndexes g t idxs) = idxs.map (buildIndexSQL t))
    ∧ (∀ (g : String → Bool) (t : String) (cols : List String) (rows : List (List String)),
        execStmts (processBatches g t cols rows B) = (batches rows B).map (buildInsert t cols))
    ∧ (∀ (g : String → Bool) (t : String) (idxs : List IndexDescr) (idx : IndexDescr),
        idx ∈ idxs → g (buildIndexSQL t idx) = true →
          Event.warning idx.name ∈ processIndexes g t idxs)
    ∧ (∀ (g : String → Bool) (t : String) (cols : List String)
        (bs : List (List (List String))) (b : List (List String)) (k : Nat),
        b ∈ bs → g (buildInsert t cols b) = true →
          ∃ j, Event.batchError j t ∈ batchEvents g t cols k bs) := by
  obtain ⟨es, hr, hs⟩ := runTables_ok src f B (get_tables src) h
  obtain ⟨es0, hr0, hs0⟩ := runTables_ok src (fun _ => false) B (get_tables src)
    (fun t ht => by cases hq : lookupTableSql src t <;> simp [hq])
  refine ⟨?_, ?_, ?_, ?_, ?_, ?_⟩
  · simp [mainRun, hr]
  · simp only [mainRun, hr, hr0]
    rw [execStmts_append, execStmts_append, hs, hs0]
  · intro g t idxs
    exact execStmts_processIndexes g t idxs
  · intro g t cols rows
    exact execStmts_processBatches g t cols rows B
  · intro g t idxs idx
    exact warning_mem_processIndexes g t idxs idx
  · intro g t cols bs b k
    exact batchError_mem_batchEvents g t cols bs b k

/-- Witness for C3: failing the index statement of the example database
still lets the run complete. -/
theorem C3_failure_isolation_witness :
    (∀ t ∈ get_tables egSrc, (lookupTableSql egSrc t).all
        (fun s => !(fun x => x == "CREATE INDEX `ix` ON `users` (`name`);") (dropSQL t)
          && !(fun x => x == "CREATE INDEX `ix` ON `users` (`name`);")
              (buildCreate t (parse_columns s))) = true)
    ∧ (mainRun egSrc (fun x => x == "CREATE INDEX `ix` ON `users` (`name`);") 2).2 = true :=
  ⟨by decide, (C3_failure_isolation egSrc
      (fun x => x == "CREATE INDEX `ix` ON `users` (`name`);") 2 (by decide)).1⟩

/-- C4 counterexample: on "(a INT, b DECIMAL(10,2), c TEXT)" the raw type
token the code extracts for column b is "DECIMAL(10", not the intact
"DECIMAL(10,2)" the claim states: the column regex token [^\s,]+ of line
33 stops at the internal comma even though the clause itself was not
split there. -/
theorem C4_type_token_counterexample :
    extractedTypeTokens "(a INT, b DECIMAL(10,2), c TEXT)" = ["INT", "DECIMAL(10", "TEXT"]
    ∧ "DECIMAL(10" ≠ "DECIMAL(10,2)" :=
  ⟨by decide, by decide⟩

/-- C4 amended: parsing "(a INT, b DECIMAL(10,2), c TEXT)" yields exactly
three columns a, b, c in order, and the clause for b is not split at the
comma inside DECIMAL(10,2); however b's extracted type token is the
truncated string "DECIMAL(10" (so b maps to TEXT via the fallback). -/
theorem C4_parse_columns_amended :
    clausesOf "(a INT, b DECIMAL(10,2), c TEXT)" = ["a INT", "b DECIMAL(10,2)", "c TEXT"]
    ∧ parse_columns "(a INT, b DECIMAL(10,2), c TEXT)" =
        [("a", "INT"), ("b", "TEXT"), ("c", "TEXT")]
    ∧ extractedTypeTokens "(a INT, b DECIMAL(10,2), c TEXT)" = ["INT", "DECIMAL(10", "TEXT"] :=
  ⟨by decide, by decide, by decide⟩

/-- C5: whenever an index row parses, unique is true exactly when UNIQUE
occurs (case-insensitively, i.e. as a substring of the upper-cased text)
anywhere in the creation text, the descriptor keeps the catalog name, the
columns are the first parenthesized group split on commas with each entry
trimmed and stripped of quoting and bracket characters in order, and
parsing "CREATE UNIQUE INDEX idx1 ON t (x, y)" yields name idx1, unique
true, columns [x, y]. -/
theorem C5_index_descr (name sql : String) (d : IndexDescr)
    (h : parseIndexRow name sql = some d) :
    (d.unique = true ↔ ∃ l r, (upStr sql).toList = l ++ "UNIQUE".toList ++ r)
    ∧ d.name = name
    ∧ (∀ g, firstParenGroup sql.toList = some g →
        d.columns = (List.splitOn ',' g).map (fun col => String.mk (stripQuo (pyStrip col))))
    ∧ parseIndexRow "idx1" "CREATE UNIQUE INDEX idx1 ON t (x, y)" =
        some { name := "idx1", unique := true, columns := ["x", "y"] } := by
  simp only [parseIndexRow] at h
  cases hg : firstParenGroup sql.toList with
  | none => rw [hg] at h; simp at h
  | some g =>
    rw [hg] at h
    simp only [Option.some.injEq] at h
    subst h
    refine ⟨?_, rfl, ?_, by decide⟩
    · show containsSub "UNIQUE" (upStr sql) = true ↔ _
      exact containsAux_iff _ _
    · intro g2 hg2
      injection hg2 with hgg
      subst hgg
      rfl

/-- Witness for C5 at the example index text. -/
theorem C5_index_descr_witness :
    parseIndexRow "idx1" "CREATE UNIQUE INDEX idx1 ON t (x, y)" =
      some { name := "idx1", unique := true, columns := ["x", "y"] }
    ∧ ({ name := "idx1", unique := true, columns := ["x", "y"] } : IndexDescr).name = "idx1" :=
  ⟨by decide, (C5_index_descr "idx1" "CREATE UNIQUE INDEX idx1 ON t (x, y)"
      { name := "idx1", unique := true, columns := ["x", "y"] } (by decide)).2.1⟩

/-- C6: any clause whose trimmed, upper-cased text starts with CONSTRAINT,
PRIMARY KEY, UNIQUE or FOREIGN KEY contributes no column, and parsing
"(a INT, PRIMARY KEY(a))" yields exactly the single column a. -/
theorem C6_constraint_clauses (part : List Char)
    (h : startsWithAny ((pyStrip part).map upChar) constraintKeys = true) :
    clauseToCol part = none
    ∧ parse_columns "(a INT, PRIMARY KEY(a))" = [("a", "INT")] := by
  constructor
  · simp only [clauseToCol, clauseRaw, h]
    by_cases he : (pyStrip part).isEmpty = true <;> simp [he]
  · decide

/-- Witness for C6 at the clause "PRIMARY KEY(a)". -/
theorem C6_constraint_clauses_witness :
    startsWithAny ((pyStrip "PRIMARY KEY(a)".toList).map upChar) constraintKeys = true
    ∧ clauseToCol "PRIMARY KEY(a)".toList = none :=
  ⟨by decide, (C6_constraint_clauses "PRIMARY KEY(a)".toList (by decide)).1⟩

/-- C7 counterexample: when the drop statement of the first table raises
(an execution path terminating early via an exception while processing
tables), the run ends with neither connection closed: lines 123-126 run
only on the normal path, there is no finally or with block. -/
theorem C7_close_counterexample :
    (mainRun egSrc (fun s => s == dropSQL "users") 100).2 = false
    ∧ Event.closeTarget ∉ (mainRun egSrc (fun s => s == dropSQL "users") 100).1
    ∧ Event.closeSource ∉ (mainRun egSrc (fun s => s == dropSQL "users") 100).1 := by
  refine ⟨by decide, by decide, by decide⟩

/-- C7 amended: both connections are closed at the end of every normally
completing run, but on a path that terminates early via an unhandled
exception (a failing drop or create statement) the run ends without
closing either connection. -/
theorem C7_close_amended (src : SourceDB) (f : String → Bool) (B : Nat) :
    ((mainRun src f B).2 = true →
      ∃ es, (mainRun src f B).1 = es ++ [Event.closeTarget, Event.closeSource])
    ∧ ((mainRun src f B).2 = false →
      Event.closeTarget ∉ (mainRun src f B).1 ∧ Event.closeSource ∉ (mainRun src f B).1) := by
  cases hr : runTables src f B (get_tables src) with
  | error es =>
    constructor
    · intro h
      simp [mainRun, hr] at h
    · intro h
      have hnc := runTables_no_close src f B (get_tables src)
      rw [hr] at hnc
      simp only [eventsOf] at hnc
      simp only [mainRun, hr]
      constructor
      · intro hmem
        exact (hnc Event.closeTarget hmem).1 rfl
      · intro hmem
        exact (hnc Event.closeSource hmem).2 rfl
  | ok es =>
    constructor
    · intro h
      exact ⟨es, by simp [mainRun, hr]⟩
    · intro h
      simp [mainRun, hr] at h

/-- Witness for C7 amended on a normally completing run. -/
theorem C7_close_amended_witness :
    (mainRun egSrc (fun _ => false) 100).2 = true
    ∧ ∃ es, (mainRun egSrc (fun _ => false) 100).1 =
        es ++ [Event.closeTarget, Event.closeSource] :=
  ⟨by decide, (C7_close_amended egSrc (fun _ => false) 100).1 (by decide)⟩

/-- C8: for every input string containing no parenthesized group (no open
parenthesis with a close parenthesis somewhere after it), parse_columns
returns the empty sequence rather than raising an error, and likewise the
clause list and token list are empty. -/
theorem C8_no_paren_group (schema : String)
    (h : ¬ ∃ l r, schema.toList = l ++ '(' :: r ∧ ')' ∈ r) :
    parse_columns schema = [] ∧ clausesOf schema = [] ∧ extractedTypeTokens schema = [] := by
  have hog : outerParenGroup schema.toList = none := by
    cases hog : outerParenGroup schema.toList with
    | none => rfl
    | some g =>
      exfalso
      unfold outerParenGroup at hog
      cases ha : afterFirstParen schema.toList with
      | none => rw [ha] at hog; simp at hog
      | some rest =>
        rw [ha] at hog
        simp only [Option.some_bind] at hog
        obtain ⟨l, hl⟩ := afterFirstParen_decomp _ _ ha
        exact h ⟨l, rest, hl, upToLastClose_mem rest g hog⟩
  have hogd : outerParenGroup schema.data = none := hog
  exact ⟨by simp [parse_columns, hogd], by simp [clausesOf, hogd],
    by simp [extractedTypeTokens, hogd]⟩

/-- Witness for C8 on an input with no parentheses. -/
theorem C8_no_paren_group_witness :
    parse_columns "CREATE TABLE t" = [] :=
  (C8_no_paren_group "CREATE TABLE t" (by
    rintro ⟨l, r, hl, hr⟩
    have hmem : ('(' : Char) ∈ "CREATE TABLE t".toList := by
      rw [hl]
      exact List.mem_append_right _ (List.mem_cons_self _ _)
    exact absurd hmem (by decide))).1

/-- C9: every table name returned by get_tables fails the sqlite_ test,
both as the code's boolean check and as the absence of any decomposition
of the name with "sqlite_" in front; internal catalog tables present in
the source catalog are thereby excluded from the run, which iterates only
over get_tables. -/
theorem C9_internal_tables_excluded (src : SourceDB) (name : String)
    (h : name ∈ get_tables src) :
    sqliteInternal name = false
    ∧ ¬ ∃ t, name.toList = "sqlite_".toList ++ t := by
  have h3 : sqliteInternal name = false := by
    simpa using (List.mem_filter.mp h).2
  refine ⟨h3, ?_⟩
  rintro ⟨t, ht⟩
  have hlw : leadsWith "sqlite_".toList name.toList = true := (leadsWith_iff _ _).mpr ⟨t, ht⟩
  unfold sqliteInternal at h3
  rw [hlw] at h3
  exact Bool.true_eq_false.mp h3

/-- Witness for C9: the example catalog contains sqlite_stat1 yet only
users and empty are discovered. -/
theorem C9_internal_tables_excluded_witness :
    ("users" ∈ get_tables egSrc ∧ get_tables egSrc = ["users", "empty"])
    ∧ sqliteInternal "users" = false :=
  ⟨⟨by decide, by decide⟩, (C9_internal_tables_excluded egSrc "users" (by decide)).1⟩

/-- C10: a discovered table whose catalog entry has a missing, null or
empty creation text is skipped entirely, producing no event at all (no
drop, create, index or insert statement and no log line), and the loop
over the remaining tables behaves exactly as if the table were absent. -/
theorem C10_skip_missing_schema (src : SourceDB) (f : String → Bool) (B : Nat)
    (t : String) (ts : List String) (h : lookupTableSql src t = none) :
    processTable src f B t = Except.ok []
    ∧ runTables src f B (t :: ts) = runTables src f B ts := by
  have h1 : processTable src f B t = Except.ok [] := by
    simp [processTable, h]
  refine ⟨h1, ?_⟩
  cases hr : runTables src f B ts with
  | error es =>
    rw [runTables, h1, hr]
    simp
  | ok es =>
    rw [runTables, h1, hr]
    simp

/-- Witness for C10 at the empty-text table of the example catalog. -/
theorem C10_skip_missing_schema_witness :
    lookupTableSql egSrc "empty" = none
    ∧ processTable egSrc (fun _ => false) 100 "empty" = Except.ok [] :=
  ⟨by decide, (C10_skip_missing_schema egSrc (fun _ => false) 100 "empty" [] (by decide)).1⟩

end Utility
